import Mathlib

/-!
Formal model of the feature-engineering and label pipeline of this
repository (src/preprocessing.py, src/train.py, src/export_model.py).

Python dictionaries are modelled as association lists with unique keys,
JSON-like values as the inductive type `Value` (numbers are modelled as
integers), and Python's 32-bit-wrapping arithmetic as `Nat` arithmetic
with explicit `% 2^32`.  Every definition is a direct translation of the
corresponding source function; comments cite the source lines.
-/

namespace PreSave

/-- JSON-like Python values as they appear in `data.before` / `data.after`
maps of a change record.  Numbers are modelled as integers. -/
inductive Value where
  | vNull
  | vBool (b : Bool)
  | vInt (n : Int)
  | vStr (s : String)
  | vList (l : List Value)
  | vDict (d : List (String × Value))

/-- Mirrors `stable_hash`, preprocessing.py lines 43-51, one loop step:
`h = ((h << 5) - h) + ord(char); h &= 0xFFFFFFFF`.  Inside the loop `h`
is always a non-negative Python int (it enters masked to `[0, 2^32)`),
so `& 0xFFFFFFFF` is `% 2^32` and the subtraction never underflows
(`h <<< 5 = h * 32 ≥ h`). -/
def stable_hash_step (h : Nat) (c : Char) : Nat :=
  ((h <<< 5) - h + c.toNat) % 4294967296

/-- The accumulator value after the whole loop of `stable_hash`
(preprocessing.py lines 45-48), before sign reinterpretation.
`ord(char)` is the Unicode code point, i.e. `Char.toNat`. -/
def stable_hash_unsigned (s : String) : Nat :=
  s.data.foldl stable_hash_step 0

/-- Mirrors `stable_hash`, preprocessing.py lines 43-51: the masked loop
followed by `if h > 0x7FFFFFFF: h -= 0x100000000` (two's-complement sign
reinterpretation). -/
def stable_hash (s : String) : Int :=
  if stable_hash_unsigned s > 0x7FFFFFFF then
    (stable_hash_unsigned s : Int) - 0x100000000
  else
    (stable_hash_unsigned s : Int)

/-- Python truthiness (`bool(val)`) for our value type: `None`, `False`,
`0`, `""`, `[]` and `\x7b\x7d` are falsy, everything else truthy. -/
def py_truthy : Value → Bool
  | .vNull => false
  | .vBool b => b
  | .vInt n => n != 0
  | .vStr s => s != ""
  | .vList l => !l.isEmpty
  | .vDict d => !d.isEmpty

/-- Mirrors the Python membership test `val in (None, False, [], "")`
used at preprocessing.py lines 75 and 103.  Python `in` compares with
`==`; since `False == 0` in Python, the number `0` is also a member.
A non-empty list equals none of the four elements, an empty dict equals
neither `[]` nor any other element, and `True` equals none of them. -/
def in_falsy_tuple : Value → Bool
  | .vNull => true
  | .vBool b => !b
  | .vInt n => n == 0
  | .vStr s => s == ""
  | .vList l => l.isEmpty
  | .vDict _ => false

/-- Mirrors `is_create = not val or val == "" or val is False`
(preprocessing.py line 101) for the identity-field branch. -/
def identity_is_create (val : Value) : Bool :=
  !py_truthy val ||
    (match val with | .vStr s => s == "" | _ => false) ||
    (match val with | .vBool false => true | _ => false)

/-- Mirrors `is_create = not before or len(before) == 0 or
all(v in (None, False, "", []) for v in before.values())`
(preprocessing.py line 103), the generic before-is-empty heuristic. -/
def generic_is_create (before : List (String × Value)) : Bool :=
  before.isEmpty || before.length == 0 || before.all (fun p => in_falsy_tuple p.2)

/-- Mirrors preprocessing.py lines 99-105: the operation inferred when
`metadata.operation` is missing or falsy.  `identity_field` is the result
of `v_map.get(vendor, \x7b\x7d).get(object_type, \x7b\x7d).get("identity_field")`
(the vendor field map is an external input, so it is abstracted by this
lookup result).  The Python guard is `if identity_field and identity_field
in before:`, so an empty-string identity field falls through to the
generic branch. -/
def infer_operation (identity_field : Option String) (before : List (String × Value)) :
    String :=
  match identity_field with
  | some f =>
    if f ≠ "" then
      match before.lookup f with
      | some val => if identity_is_create val then "CREATE" else "EDIT"
      | none => if generic_is_create before then "CREATE" else "EDIT"
    else
      if generic_is_create before then "CREATE" else "EDIT"
  | none => if generic_is_create before then "CREATE" else "EDIT"

/-- Mirrors preprocessing.py lines 90-105: `operation =
metadata.get("operation")` followed by `if not operation:` inference, so
a missing or empty-string operation is discarded and inferred. -/
def compute_operation (op : Option String) (identity_field : Option String)
    (before : List (String × Value)) : String :=
  match op with
  | some s => if s ≠ "" then s else infer_operation identity_field before
  | none => infer_operation identity_field before

/-- ASCII uppercasing of one character; agrees with Python `str.upper`
on the ASCII strings this pipeline manipulates. -/
def py_upper_char (c : Char) : Char :=
  if 97 ≤ c.toNat && c.toNat ≤ 122 then Char.ofNat (c.toNat - 32) else c

/-- ASCII uppercasing of a string (Python `str.upper` on ASCII data). -/
def py_upper (s : String) : String :=
  ⟨s.data.map py_upper_char⟩

/-- Mirrors preprocessing.py lines 89 and 107: `obj_type =
metadata.get("object_type", "unknown").upper()` and
`labels.append(f"..." )` with `operation.upper()`. -/
def sample_label (object_type : Option String) (op : Option String)
    (identity_field : Option String) (before : List (String × Value)) : String :=
  py_upper (object_type.getD "unknown") ++ " " ++
    py_upper (compute_operation op identity_field before)

mutual

/-- Python `repr` of a value (string escaping inside quotes is not
modelled; no theorem depends on it). -/
def py_repr : Value → String
  | .vNull => "None"
  | .vBool true => "True"
  | .vBool false => "False"
  | .vInt n => toString n
  | .vStr s => "\x27" ++ s ++ "\x27"
  | .vList l => "[" ++ String.intercalate ", " (py_repr_list l) ++ "]"
  | .vDict d => "\x7b" ++ String.intercalate ", " (py_repr_entries d) ++ "\x7d"

def py_repr_list : List Value → List String
  | [] => []
  | v :: vs => py_repr v :: py_repr_list vs

def py_repr_entries : List (String × Value) → List String
  | [] => []
  | (k, v) :: es => ("\x27" ++ k ++ "\x27: " ++ py_repr v) :: py_repr_entries es

end

/-- Python `str` of a value: a string is rendered without quotes, every
other value as its `repr`. -/
def py_str : Value → String
  | .vStr s => s
  | v => py_repr v

/-- Tokens contributed by one vocabulary key to the text view, mirroring
preprocessing.py lines 60-67: a key absent from `after` contributes
nothing; a present key contributes `str(k)` followed by `map(str, v)` for
a list value, else `str(v)`. -/
def key_tokens (data_after : List (String × Value)) (k : String) : List String :=
  match data_after.lookup k with
  | none => []
  | some v =>
    match v with
    | .vList l => k :: l.map py_str
    | _ => [k, py_str v]

/-- All tokens of the text view, in vocabulary order. -/
def text_tokens (keys : List String) (data_after : List (String × Value)) : List String :=
  (keys.map (key_tokens data_after)).flatten

/-- Mirrors the text view of preprocessing.py lines 59-68, including the
final `" ".join(t)`. -/
def text_view (keys : List String) (data_after : List (String × Value)) : String :=
  String.intercalate " " (text_tokens keys data_after)

/-- Mirrors the struct view of preprocessing.py lines 71-76:
`val = data_after.get(k)` (whence `None` when the key is missing)
and `0 if val in (None, False, [], "") else 1` for each vocabulary key. -/
def struct_vec (keys : List String) (data_after : List (String × Value)) : List Nat :=
  keys.map (fun k =>
    if in_falsy_tuple ((data_after.lookup k).getD Value.vNull) then 0 else 1)

/-- Modelled from the spec: the struct view emits 0 when the value in
`after` is missing, `None`/null, `false`, an empty sequence, or an empty
string (section 4.2 of the spec; the claim's list of zero cases). -/
def spec_struct_zero : Option Value → Bool
  | none => true
  | some .vNull => true
  | some (.vBool b) => !b
  | some (.vList l) => l.isEmpty
  | some (.vStr s) => s == ""
  | some _ => false

/-- The amended zero predicate: the spec's zero cases extended with the
number `0`, which Python's `val in (None, False, [], "")` also accepts
because `0 == False`. -/
def spec_struct_zero_amended (ov : Option Value) : Bool :=
  match ov with
  | some (.vInt n) => n == 0
  | _ => spec_struct_zero ov

/-- Fixed diff-view width, preprocessing.py line 79. -/
def diff_len : Nat := 200

/-- Mirrors the diff view of preprocessing.py lines 80-86.  Each change
entry is modelled by its `c.get("field", "")` lookup result (`none` for a
missing key); the guard `if field_name:` skips empty names.  The source
computes `h = abs(stable_hash(field_name)) % diff_len` and then writes
`bit[h % diff_len] = 1`, hence the repeated `% diff_len`. -/
def diff_step (bit : List Nat) (c : Option String) : List Nat :=
  let field_name := c.getD ""
  if field_name ≠ "" then
    bit.set ((stable_hash field_name).natAbs % diff_len % diff_len) 1
  else bit

def diff_vec (changes : List (Option String)) : List Nat :=
  changes.foldl diff_step (List.replicate diff_len 0)

/-- Whether some entry of `changes` has a non-empty field name whose
bucket is `i`. -/
def diff_pred (changes : List (Option String)) (i : Nat) : Bool :=
  changes.any (fun c =>
    ((c.getD "") != "") && (((stable_hash (c.getD "")).natAbs % diff_len) == i))

/-- Boolean strict lexicographic order on code-point lists (the order
Python uses to compare strings). -/
def lex_ltb : List Char → List Char → Bool
  | [], [] => false
  | [], _ :: _ => true
  | _ :: _, [] => false
  | a :: as, b :: bs => if a < b then true else if b < a then false else lex_ltb as bs

/-- Boolean `≤` on strings by code points; proved below to agree with
the `LinearOrder String` order. -/
def str_leb (a b : String) : Bool :=
  !(lex_ltb b.data a.data)

/-- Mirrors `unique_labels = sorted(set(labels))` (preprocessing.py line
123): the distinct labels in lexicographically sorted order. -/
def unique_labels (labels : List String) : List String :=
  List.insertionSort (fun a b => str_leb a b = true) labels.dedup

/-- Index of the first occurrence of `l`. -/
def find_idx (l : String) : List String → Option Nat
  | [] => none
  | x :: xs => if x = l then some 0 else (find_idx l xs).map (fun i => i + 1)

/-- Mirrors `label_to_idx = \x7blabel: i for i, label in
enumerate(unique_labels)\x7d` (preprocessing.py line 124), viewed as the
partial map from a label to its index. -/
def label_to_idx (labels : List String) (l : String) : Option Nat :=
  find_idx l (unique_labels labels)

/-- The dict `\x7blabel: i for i, label in enumerate(ul)\x7d` as an
association list in insertion order, with indices starting at `n`. -/
def enum_pairs : Nat → List String → List (String × Nat)
  | _, [] => []
  | n, x :: xs => (x, n) :: enum_pairs (n + 1) xs

/-- Mirrors `\x7bv: k for k, v in label_map.items()\x7d`
(export_model.py line 52): the inverted label map. -/
def invert_map (m : List (String × Nat)) : List (Nat × String) :=
  m.map (fun p => (p.2, p.1))

/-- Mirrors preprocessing.py lines 110-112: `max_len = 0` and, when
`structs` is non-empty, `max(len(s) for s in structs)`; the fold below
computes exactly that (the maximum of the lengths, `0` for an empty
corpus). -/
def max_len (structs : List (List Nat)) : Nat :=
  (structs.map List.length).foldl Nat.max 0

/-- The `data` member of a change record; `before`/`after` may each be
absent. -/
structure RecordData where
  before : Option (List (String × Value))
  after : Option (List (String × Value))

/-- One training record, shaped like the dicts read from the corpus.
`changes` holds each entry's `c.get("field", "")` source, with `none` for
an entry lacking the `field` key. -/
structure Sample where
  metadata_object_type : Option String
  metadata_operation : Option String
  metadata_vendor : Option String
  data : Option RecordData
  changes : List (Option String)

/-- Mirrors `s.get("data", \x7b\x7d).get("after", \x7b\x7d)`
(preprocessing.py line 55). -/
def get_data_after (s : Sample) : List (String × Value) :=
  match s.data with
  | none => []
  | some d => d.after.getD []

/-- Mirrors `before = s.get("data", \x7b\x7d).get("before", \x7b\x7d)`
(preprocessing.py line 97). -/
def get_data_before (s : Sample) : List (String × Value) :=
  match s.data with
  | none => []
  | some d => d.before.getD []

/-- Keys contributed by one sample to the canonical key vocabulary
(preprocessing.py lines 37-39: only when both `data` and `data.after`
are present). -/
def sample_after_keys (s : Sample) : List String :=
  match s.data with
  | none => []
  | some d =>
    match d.after with
    | none => []
    | some a => a.map Prod.fst

/-- Mirrors `sorted_keys = sorted(list(all_keys))` (preprocessing.py
lines 36-40): the sorted set of all after-state keys of the corpus. -/
def sorted_keys (samples : List Sample) : List String :=
  List.insertionSort (fun a b => str_leb a b = true)
    ((samples.map sample_after_keys).flatten).dedup

/-- The label computed for one sample (preprocessing.py lines 88-107),
given the vendor-field-map lookup result for that sample. -/
def sample_label_of (idf_of : Sample → Option String) (s : Sample) : String :=
  sample_label s.metadata_object_type s.metadata_operation (idf_of s) (get_data_before s)

/-- All labels of the corpus, in sample order. -/
def corpus_labels (idf_of : Sample → Option String) (samples : List Sample) : List String :=
  samples.map (sample_label_of idf_of)

/-- The fields of the pickled `out` dict relevant to the claims
(preprocessing.py lines 126-137). -/
structure TrainOut where
  label_pairs : List (String × Nat)
  struct_dim : Nat
  diff_dim : Nat
  feature_keys : List String

/-- Mirrors the construction of `out` in preprocessing.py lines 109-137:
`label_to_idx` from the sorted distinct labels, `struct_dim = max_len`,
`diff_dim = 200`, `feature_keys = sorted_keys`. -/
def preprocess_out (idf_of : Sample → Option String) (samples : List Sample) : TrainOut :=
  { label_pairs := enum_pairs 0 (unique_labels (corpus_labels idf_of samples)),
    struct_dim := max_len (samples.map (fun s => struct_vec (sorted_keys samples) (get_data_after s))),
    diff_dim := diff_len,
    feature_keys := sorted_keys samples }

/-- The layer widths of `MultiheadModel` as built in train.py lines
102-110 from the pickled preprocessing output. -/
structure ModelDims where
  tfidf_dim : Nat
  struct_in : Nat
  diff_in : Nat
  hidden : Nat
  num_classes : Nat

/-- Mirrors train.py lines 102-110: the struct expert's input width is
the `struct_dim` loaded from `train.pkl`. -/
def train_model_dims (out : TrainOut) (tfidf_dim : Nat) : ModelDims :=
  { tfidf_dim := tfidf_dim,
    struct_in := out.struct_dim,
    diff_in := out.diff_dim,
    hidden := 128,
    num_classes := out.label_pairs.length }

/-- The `metadata` object of the exported artifact
(export_model.py lines 51-56). -/
structure ExportMetadata where
  labels : List (Nat × String)
  struct_dim : Nat
  diff_dim : Nat
  feature_keys : List String

/-- Mirrors export_model.py lines 51-56: the label map inverted, and
`struct_dim`/`diff_dim`/`feature_keys` passed through from the training
artifacts (train.py lines 178-185 copy them from the preprocessing
output unchanged). -/
def export_metadata (out : TrainOut) : ExportMetadata :=
  { labels := invert_map out.label_pairs,
    struct_dim := out.struct_dim,
    diff_dim := out.diff_dim,
    feature_keys := out.feature_keys }

/-- A record with no `metadata` keys, no `data` and no `changes`. -/
def sampleEmpty : Sample :=
  { metadata_object_type := none,
    metadata_operation := none,
    metadata_vendor := none,
    data := none,
    changes := [] }

/-- Sample A of the end-to-end scenario: `before=\x7b\x7d`,
`after=\x7b"name":"obj1","status":"enable"\x7d`,
`changes=[\x7b"field":"name"\x7d]`, metadata
`\x7bobject_type:"address"\x7d`, no operation, no vendor. -/
def sampleA : Sample :=
  { metadata_object_type := some "address",
    metadata_operation := none,
    metadata_vendor := none,
    data := some { before := some [], after := some [("name", Value.vStr "obj1"), ("status", Value.vStr "enable")] },
    changes := [some "name"] }

/-- Sample B of the end-to-end scenario: `before=\x7b"name":"obj1",
"status":"enable"\x7d`, `after=\x7b"name":"obj1","status":"disable"\x7d`,
`changes=[\x7b"field":"status"\x7d]`, metadata
`\x7bobject_type:"address"\x7d`, no operation, no vendor. -/
def sampleB : Sample :=
  { metadata_object_type := some "address",
    metadata_operation := none,
    metadata_vendor := none,
    data := some { before := some [("name", Value.vStr "obj1"), ("status", Value.vStr "enable")], after := some [("name", Value.vStr "obj1"), ("status", Value.vStr "disable")] },
    changes := [some "status"] }

end PreSave

namespace PreSave

/-- The loop accumulator stays below `2^32`. -/
theorem stable_hash_foldl_lt (l : List Char) (h : Nat) (hh : h < 4294967296) :
    l.foldl stable_hash_step h < 4294967296 := by
  induction l generalizing h with
  | nil => exact hh
  | cons c cs ih =>
    exact ih _ (Nat.mod_lt _ (by norm_num))

theorem stable_hash_unsigned_lt (s : String) : stable_hash_unsigned s < 4294967296 :=
  stable_hash_foldl_lt s.data 0 (by norm_num)

/-- The shift-based step equals the `h*31 + codepoint` step. -/
theorem stable_hash_step_eq_mul31 :
    stable_hash_step = fun h c => (h * 31 + c.toNat) % 4294967296 := by
  funext h c
  have h32 : h <<< 5 = h * 32 := by
    rw [Nat.shiftLeft_eq]
  simp only [stable_hash_step, h32]
  omega

/-- C1: for every string `s`, `stable_hash s` equals the left fold of
`h := (h * 31 + codepoint c) % 2^32` over the code points of `s` starting
from `0`, followed by two's-complement sign reinterpretation (subtract
`2^32` when the unsigned value exceeds `0x7FFFFFFF`); the shift form used
by the source agrees with the `h*31` form, and the result always lies in
`[-2^31, 2^31 - 1]`. -/
theorem C1_stable_hash_spec (s : String) :
    stable_hash s =
      (if s.data.foldl (fun h c => (h * 31 + c.toNat) % 4294967296) 0 > 0x7FFFFFFF then
        ((s.data.foldl (fun h c => (h * 31 + c.toNat) % 4294967296) 0 : Nat) : Int) - 0x100000000
      else
        ((s.data.foldl (fun h c => (h * 31 + c.toNat) % 4294967296) 0 : Nat) : Int))
    ∧ -2147483648 ≤ stable_hash s ∧ stable_hash s ≤ 2147483647 := by
  refine ⟨?_, ?_, ?_⟩
  · simp only [stable_hash, stable_hash_unsigned, stable_hash_step_eq_mul31]
  · have hlt := stable_hash_unsigned_lt s
    simp only [stable_hash]
    split <;> omega
  · have hlt := stable_hash_unsigned_lt s
    simp only [stable_hash]
    split <;> omega

/-- Pointwise: the source's membership test on `data_after.get(k)` agrees
with the amended zero predicate applied to the lookup result. -/
theorem struct_entry_eq (ov : Option Value) :
    (if in_falsy_tuple (ov.getD Value.vNull) then (0 : Nat) else 1) =
      (if spec_struct_zero_amended ov then 0 else 1) := by
  cases ov with
  | none => rfl
  | some v => cases v <;> rfl

/-- C2 (amended): the struct view emits, for each vocabulary key in
order, `0` exactly when the key's value in `after` is missing, `None`,
`False`, the number `0` (which Python's `==` identifies with `False`),
an empty list, or an empty string, and `1` for every other value; the
example `after = \x7b"status": "", "action": "accept"\x7d` with
vocabulary `["action", "status"]` yields `[1, 0]`. -/
theorem C2_struct_view (keys : List String) (data_after : List (String × Value)) :
    struct_vec keys data_after =
      keys.map (fun k => if spec_struct_zero_amended (data_after.lookup k) then 0 else 1) ∧
    struct_vec ["action", "status"]
      [("status", Value.vStr ""), ("action", Value.vStr "accept")] = [1, 0] := by
  constructor
  · exact congrArg (fun h => List.map h keys)
      (funext fun k => struct_entry_eq (data_after.lookup k))
  · rfl

/-- C2 counterexample: at `after = \x7b"x": 0\x7d` with vocabulary
`["x"]` the source emits `[0]` (because `0 == False` in Python), while
the claim's zero cases (missing, `None`, `False`, empty list, empty
string) do not cover the number `0`, so the claim predicts `[1]`. -/
theorem C2_counterexample :
    struct_vec ["x"] [("x", Value.vInt 0)] = [0] ∧
    (["x"].map (fun k =>
      if spec_struct_zero ([("x", Value.vInt 0)].lookup k) then 0 else 1)) = [1] :=
  ⟨rfl, rfl⟩

theorem diff_step_length (bit : List Nat) (c : Option String) :
    (diff_step bit c).length = bit.length := by
  simp only [diff_step]
  split <;> simp

theorem diff_foldl_length (cs : List (Option String)) (bit : List Nat) :
    (cs.foldl diff_step bit).length = bit.length := by
  induction cs generalizing bit with
  | nil => rfl
  | cons c cs ih => rw [List.foldl_cons, ih, diff_step_length]

/-- One bucket index is always in range. -/
theorem diff_bucket_lt (f : String) : (stable_hash f).natAbs % diff_len < 200 :=
  Nat.mod_lt _ (by norm_num [diff_len])

theorem diff_foldl_getElem? (cs : List (Option String)) (bit : List Nat)
    (hb : bit.length = 200) (i : Nat) (hi : i < 200) :
    (cs.foldl diff_step bit)[i]? = if diff_pred cs i then some 1 else bit[i]? := by
  induction cs generalizing bit with
  | nil => simp [diff_pred]
  | cons c cs ih =>
    rw [List.foldl_cons, ih (diff_step bit c) (by rw [diff_step_length, hb])]
    have hpred : diff_pred (c :: cs) i =
        ((((c.getD "") != "") && (((stable_hash (c.getD "")).natAbs % diff_len) == i))
          || diff_pred cs i) := by
      simp [diff_pred]
    by_cases hc : c.getD "" = ""
    · have hstep : diff_step bit c = bit := by simp [diff_step, hc]
      rw [hstep, hpred, hc]
      simp
    · have hb' : (stable_hash (c.getD "")).natAbs % diff_len % diff_len =
          (stable_hash (c.getD "")).natAbs % diff_len :=
        Nat.mod_mod_of_dvd _ dvd_rfl
      have hstep : diff_step bit c =
          bit.set ((stable_hash (c.getD "")).natAbs % diff_len) 1 := by
        simp [diff_step, hc, hb']
      rw [hstep, hpred]
      by_cases hp : diff_pred cs i
      · simp [hp]
      · simp only [hp, Bool.or_false, if_false]
        by_cases hbi : (stable_hash (c.getD "")).natAbs % diff_len = i
        · simp [hc, hbi, List.getElem?_set, hb, hi]
        · simp [hc, hbi, List.getElem?_set_ne hbi]

/-- C3 (amended): the diff view has length 200; position `i` is `1`
exactly when some entry of `changes` has a non-empty field name whose
bucket `abs(stable_hash(field)) % 200` equals `i`, and `0` otherwise
(entries with a missing or empty field name are skipped by the source's
`if field_name:` guard); the bucket always lies in `[0, 199]`; and the
vector depends only on the set of change entries, so repeated or
colliding field names are idempotent. -/
theorem C3_diff_view (changes : List (Option String)) :
    (diff_vec changes).length = 200 ∧
    diff_vec changes = (List.range 200).map (fun i => if diff_pred changes i then 1 else 0) ∧
    (∀ f : String, (stable_hash f).natAbs % 200 < 200) ∧
    (∀ cs1 cs2 : List (Option String), (∀ c, c ∈ cs1 ↔ c ∈ cs2) →
      diff_vec cs1 = diff_vec cs2) := by
  have hlen : ∀ cs : List (Option String), (diff_vec cs).length = 200 := by
    intro cs
    rw [diff_vec, diff_foldl_length]
    rfl
  have hchar : ∀ cs : List (Option String),
      diff_vec cs = (List.range 200).map (fun i => if diff_pred cs i then 1 else 0) := by
    intro cs
    apply List.ext_getElem
    · simp [hlen]
    · intro n h1 h2
      have hn : n < 200 := by
        have := hlen cs
        omega
      have hq := diff_foldl_getElem? cs (List.replicate diff_len 0) (by rfl) n hn
      rw [diff_vec] at *
      have hrep : (List.replicate diff_len 0)[n]? = some 0 := by
        rw [List.getElem?_replicate, if_pos (show n < diff_len from hn)]
      rw [hrep] at hq
      have hq' : (cs.foldl diff_step (List.replicate diff_len 0))[n]? =
          some (if diff_pred cs n then 1 else 0) := by
        by_cases hp : diff_pred cs n <;> simp [hp] at hq ⊢ <;> exact hq
      have := List.getElem?_eq_getElem h1
      rw [this] at hq'
      simp only [List.getElem_map, List.getElem_range]
      exact Option.some.inj hq'
  refine ⟨hlen changes, hchar changes, fun f => Nat.mod_lt _ (by norm_num), ?_⟩
  intro cs1 cs2 hmem
  rw [hchar cs1, hchar cs2]
  have hp : ∀ i, diff_pred cs1 i = diff_pred cs2 i := by
    intro i
    apply Bool.eq_iff_iff.mpr
    simp only [diff_pred, List.any_eq_true]
    constructor
    · rintro ⟨x, hx, hpx⟩
      exact ⟨x, (hmem x).mp hx, hpx⟩
    · rintro ⟨x, hx, hpx⟩
      exact ⟨x, (hmem x).mpr hx, hpx⟩
  exact congrArg (fun f => List.map f (List.range 200)) (funext fun i => by rw [hp i])

/-- Witness for C3 at a concrete input: a repeated field name is
idempotent. -/
theorem C3_diff_view_witness :
    diff_vec [some "a", some "a"] = diff_vec [some "a"] :=
  (C3_diff_view []).2.2.2 [some "a", some "a"] [some "a"] (fun c => by simp)

/-- C3 counterexample: `changes = [\x7b"field": ""\x7d]` yields the
all-zero vector: the claim, which sets position
`abs(stable_hash("")) % 200 = 0` to `1` for that entry, predicts `1`
there, but the source's `if field_name:` guard skips the entry. -/
theorem C3_counterexample :
    diff_vec [some ""] = List.replicate 200 0 ∧
    (stable_hash "").natAbs % 200 = 0 ∧
    (diff_vec [some ""]).getD ((stable_hash "").natAbs % 200) 1 = 0 :=
  ⟨rfl, rfl, rfl⟩

/-- The boolean lexicographic order agrees with the strict order on
code-point lists. -/
theorem lex_ltb_iff_lt (x y : List Char) : lex_ltb x y = true ↔ x < y := by
  induction x generalizing y with
  | nil =>
    cases y with
    | nil =>
      simp only [lex_ltb, Bool.false_eq_true, false_iff]
      intro h
      cases h
    | cons b bs =>
      simp only [lex_ltb, true_iff]
      exact List.Lex.nil
  | cons a as ih =>
    cases y with
    | nil =>
      simp only [lex_ltb, Bool.false_eq_true, false_iff]
      intro h
      cases h
    | cons b bs =>
      by_cases hab : a < b
      · simp only [lex_ltb, if_pos hab, true_iff]
        exact List.Lex.rel hab
      · by_cases hba : b < a
        · simp only [lex_ltb, if_neg hab, if_pos hba, Bool.false_eq_true, false_iff]
          intro h
          cases h with
          | cons h2 => exact absurd hba (lt_irrefl a)
          | rel h1 => exact absurd h1 hab
        · have hab2 : a = b := le_antisymm (le_of_not_lt hba) (le_of_not_lt hab)
          subst hab2
          simp only [lex_ltb, if_neg hab, if_neg hba]
          rw [ih bs]
          constructor
          · exact List.Lex.cons
          · intro h
            cases h with
            | cons h2 => exact h2
            | rel h1 => exact absurd h1 hab

/-- The boolean comparison used for sorting agrees with the linear order
on strings (which is code-point lexicographic, like Python's). -/
theorem str_leb_iff_le (a b : String) : str_leb a b = true ↔ a ≤ b := by
  rw [String.le_iff_toList_le]
  show (!lex_ltb b.data a.data) = true ↔ a.data ≤ b.data
  constructor
  · intro h
    apply le_of_not_lt
    intro hlt
    rw [← lex_ltb_iff_lt] at hlt
    rw [hlt] at h
    exact absurd h (by decide)
  · intro h
    have hn : ¬ lex_ltb b.data a.data = true := by
      rw [lex_ltb_iff_lt]
      exact not_lt.mpr h
    cases hx : lex_ltb b.data a.data
    · rfl
    · exact absurd hx hn

theorem unique_labels_perm (labels : List String) :
    (unique_labels labels).Perm labels.dedup :=
  List.perm_insertionSort _ _

theorem unique_labels_nodup (labels : List String) :
    (unique_labels labels).Nodup :=
  (unique_labels_perm labels).symm.nodup (List.nodup_dedup labels)

theorem mem_unique_labels (labels : List String) (l : String) :
    l ∈ unique_labels labels ↔ l ∈ labels :=
  (unique_labels_perm labels).mem_iff.trans List.mem_dedup

theorem unique_labels_sorted (labels : List String) :
    List.Sorted (fun a b : String => str_leb a b = true) (unique_labels labels) := by
  haveI : IsTotal String (fun a b => str_leb a b = true) :=
    ⟨fun a b => by
      rw [str_leb_iff_le, str_leb_iff_le]
      exact le_total a b⟩
  haveI : IsTrans String (fun a b => str_leb a b = true) :=
    ⟨fun a b c h1 h2 => by
      rw [str_leb_iff_le] at h1 h2 ⊢
      exact le_trans h1 h2⟩
  exact List.sorted_insertionSort _ _

theorem unique_labels_pairwise_lt (labels : List String) :
    List.Pairwise (fun a b : String => a < b) (unique_labels labels) := by
  have hs := unique_labels_sorted labels
  have hn := unique_labels_nodup labels
  have hand := List.Pairwise.and hs hn
  exact hand.imp (fun h => lt_of_le_of_ne ((str_leb_iff_le _ _).mp h.1) h.2)

theorem find_idx_isSome_iff (l : String) (xs : List String) :
    (find_idx l xs).isSome ↔ l ∈ xs := by
  induction xs with
  | nil => simp [find_idx]
  | cons x xs ih =>
    by_cases h : x = l
    · simp [find_idx, h]
    · simp only [find_idx, if_neg h, List.mem_cons]
      rw [show ((find_idx l xs).map fun i => i + 1).isSome = (find_idx l xs).isSome from
        Option.isSome_map]
      rw [ih]
      constructor
      · exact Or.inr
      · rintro (h1 | h1)
        · exact absurd h1.symm h
        · exact h1

theorem find_idx_eq_some_iff (l : String) (xs : List String) (hx : xs.Nodup) (i : Nat) :
    find_idx l xs = some i ↔ xs[i]? = some l := by
  induction xs generalizing i with
  | nil => simp [find_idx]
  | cons x xs ih =>
    obtain ⟨hnotmem, hnd⟩ := List.nodup_cons.mp hx
    by_cases h : x = l
    · subst h
      simp only [find_idx, if_pos rfl]
      cases i with
      | zero => simp
      | succ j =>
        simp only [List.getElem?_cons_succ]
        constructor
        · intro hc
          exact absurd hc (by simp)
        · intro hc
          obtain ⟨hj, hget⟩ := List.getElem?_eq_some.mp hc
          exact absurd (hget ▸ List.getElem_mem hj) hnotmem
    · simp only [find_idx, if_neg h]
      cases i with
      | zero =>
        simp only [List.getElem?_cons_zero, Option.map_eq_some']
        constructor
        · rintro ⟨j, _, hj⟩
          exact absurd hj (by omega)
        · intro hc
          exact absurd (Option.some.inj hc) h
      | succ j =>
        simp only [List.getElem?_cons_succ, Option.map_eq_some']
        rw [← ih hnd j]
        constructor
        · rintro ⟨j2, hj2, hj⟩
          have : j2 = j := by omega
          exact this ▸ hj2
        · intro hc
          exact ⟨j, hc, rfl⟩

/-- C4: `label_to_idx` is a bijection from exactly the distinct labels of
the corpus onto the contiguous range `[0, num_labels)`: a label has an
index iff it occurs in the corpus, indices are below the number of
distinct labels, every such index is hit by a corpus label, no two
distinct labels share an index, and the index order agrees with the
lexicographic order on labels. -/
theorem C4_label_to_idx_bijection (labels : List String) :
    (∀ l, (label_to_idx labels l).isSome ↔ l ∈ labels) ∧
    (∀ l i, label_to_idx labels l = some i → i < (unique_labels labels).length) ∧
    (∀ i, i < (unique_labels labels).length →
      ∃ l, l ∈ labels ∧ label_to_idx labels l = some i) ∧
    (∀ l1 l2 i, label_to_idx labels l1 = some i → label_to_idx labels l2 = some i →
      l1 = l2) ∧
    (∀ a b, a ∈ labels → b ∈ labels →
      (a < b ↔ ∃ i j, label_to_idx labels a = some i ∧ label_to_idx labels b = some j ∧
        i < j)) := by
  have hnd := unique_labels_nodup labels
  have hpw := unique_labels_pairwise_lt labels
  have hgetlt := List.pairwise_iff_getElem.mp hpw
  refine ⟨?_, ?_, ?_, ?_, ?_⟩
  · intro l
    rw [label_to_idx, find_idx_isSome_iff, mem_unique_labels]
  · intro l i h
    rw [label_to_idx, find_idx_eq_some_iff _ _ hnd] at h
    exact (List.getElem?_eq_some.mp h).1
  · intro i hi
    refine ⟨(unique_labels labels)[i], ?_, ?_⟩
    · rw [← mem_unique_labels]
      exact List.getElem_mem hi
    · rw [label_to_idx, find_idx_eq_some_iff _ _ hnd]
      exact List.getElem?_eq_getElem hi
  · intro l1 l2 i h1 h2
    rw [label_to_idx, find_idx_eq_some_iff _ _ hnd] at h1 h2
    rw [h1] at h2
    exact Option.some.inj h2
  · intro a b ha hb
    have ha2 : (label_to_idx labels a).isSome := by
      rw [label_to_idx, find_idx_isSome_iff, mem_unique_labels]
      exact ha
    have hb2 : (label_to_idx labels b).isSome := by
      rw [label_to_idx, find_idx_isSome_iff, mem_unique_labels]
      exact hb
    obtain ⟨i, hi⟩ := Option.isSome_iff_exists.mp ha2
    obtain ⟨j, hj⟩ := Option.isSome_iff_exists.mp hb2
    have hi2 := (find_idx_eq_some_iff _ _ hnd _).mp hi
    have hj2 := (find_idx_eq_some_iff _ _ hnd _).mp hj
    obtain ⟨hilt, higet⟩ := List.getElem?_eq_some.mp hi2
    obtain ⟨hjlt, hjget⟩ := List.getElem?_eq_some.mp hj2
    constructor
    · intro hab
      refine ⟨i, j, hi, hj, ?_⟩
      rcases Nat.lt_trichotomy i j with h | h | h
      · exact h
      · subst h
        rw [higet] at hjget
        subst hjget
        exact absurd hab (lt_irrefl a)
      · have := hgetlt j i hjlt hilt h
        rw [higet, hjget] at this
        exact absurd hab (asymm this)
    · rintro ⟨i2, j2, hi3, hj3, hij⟩
      rw [hi] at hi3
      rw [hj] at hj3
      obtain rfl : i = i2 := Option.some.inj hi3
      obtain rfl : j = j2 := Option.some.inj hj3
      have := hgetlt i j hilt hjlt hij
      rw [higet, hjget] at this
      exact this

/-- Witness for C4 at the concrete corpus `["B", "A"]`: the label `"A"`
has an index, namely `0`. -/
theorem C4_label_to_idx_bijection_witness :
    (label_to_idx ["B", "A"] "A").isSome ∧ label_to_idx ["B", "A"] "A" = some 0 := by
  constructor
  · exact ((C4_label_to_idx_bijection ["B", "A"]).1 "A").mpr (by decide)
  · decide

/-- Whatever the vendor-map lookup yields, an empty before-state infers
CREATE: the identity branch cannot fire (`before` has no keys) and the
generic branch sees an empty dict. -/
theorem infer_operation_empty_before (idf : Option String) :
    infer_operation idf [] = "CREATE" := by
  cases idf with
  | none => rfl
  | some f =>
    by_cases hf : f = ""
    · subst hf
      rfl
    · simp only [infer_operation, if_pos hf]
      rfl

/-- Whatever the vendor-map lookup yields, sample B's before-state
`\x7b"name": "obj1", "status": "enable"\x7d` infers EDIT: any identity
field present maps to a truthy value, and the generic branch sees a
non-empty dict with a truthy value. -/
theorem infer_operation_beforeB (idf : Option String) :
    infer_operation idf [("name", Value.vStr "obj1"), ("status", Value.vStr "enable")] =
      "EDIT" := by
  cases idf with
  | none => rfl
  | some f =>
    by_cases h1 : f = "name"
    · subst h1
      rfl
    · by_cases h2 : f = "status"
      · subst h2
        rfl
      · by_cases hf : f = ""
        · subst hf
          rfl
        · have e1 : (f == "name") = false := beq_eq_false_iff_ne.mpr h1
          have e2 : (f == "status") = false := beq_eq_false_iff_ne.mpr h2
          have hl : List.lookup f
              [("name", Value.vStr "obj1"), ("status", Value.vStr "enable")] = none := by
            simp [List.lookup, e1, e2]
          simp only [infer_operation, if_pos hf, hl]
          rfl

/-- C5: on the two-sample corpus (both records with
`object_type = "address"` and no operation field, sample A with empty
before-state, sample B with before
`\x7b"name": "obj1", "status": "enable"\x7d`), and for every possible
vendor-field-map lookup, the pipeline infers CREATE and label
`"ADDRESS CREATE"` for A, EDIT and label `"ADDRESS EDIT"` for B, and
produces `label_to_idx = \x7b"ADDRESS CREATE": 0, "ADDRESS EDIT": 1\x7d`. -/
theorem C5_end_to_end (idf_of : Sample → Option String) :
    infer_operation (idf_of sampleA) (get_data_before sampleA) = "CREATE" ∧
    infer_operation (idf_of sampleB) (get_data_before sampleB) = "EDIT" ∧
    sample_label_of idf_of sampleA = "ADDRESS CREATE" ∧
    sample_label_of idf_of sampleB = "ADDRESS EDIT" ∧
    (preprocess_out idf_of [sampleA, sampleB]).label_pairs =
      [("ADDRESS CREATE", 0), ("ADDRESS EDIT", 1)] := by
  have hbA : get_data_before sampleA = [] := rfl
  have hbB : get_data_before sampleB =
      [("name", Value.vStr "obj1"), ("status", Value.vStr "enable")] := rfl
  have h1 : infer_operation (idf_of sampleA) (get_data_before sampleA) = "CREATE" := by
    rw [hbA]
    exact infer_operation_empty_before _
  have h2 : infer_operation (idf_of sampleB) (get_data_before sampleB) = "EDIT" := by
    rw [hbB]
    exact infer_operation_beforeB _
  have hlA : sample_label_of idf_of sampleA = "ADDRESS CREATE" := by
    show sample_label _ _ _ _ = _
    rw [sample_label]
    show py_upper "address" ++ " " ++
      py_upper (infer_operation (idf_of sampleA) (get_data_before sampleA)) = _
    rw [h1]
    decide
  have hlB : sample_label_of idf_of sampleB = "ADDRESS EDIT" := by
    show sample_label _ _ _ _ = _
    rw [sample_label]
    show py_upper "address" ++ " " ++
      py_upper (infer_operation (idf_of sampleB) (get_data_before sampleB)) = _
    rw [h2]
    decide
  refine ⟨h1, h2, hlA, hlB, ?_⟩
  show enum_pairs 0 (unique_labels (corpus_labels idf_of [sampleA, sampleB])) = _
  have hc : corpus_labels idf_of [sampleA, sampleB] = ["ADDRESS CREATE", "ADDRESS EDIT"] := by
    show [sample_label_of idf_of sampleA, sample_label_of idf_of sampleB] = _
    rw [hlA, hlB]
  rw [hc]
  decide

/-- C6 (amended): for every record with no usable `metadata.operation`,
whenever the field map yields a NON-EMPTY `identity_field` that is a key
of `data.before`, the inferred operation is CREATE exactly when that
field's before-value is falsy and EDIT otherwise, regardless of the rest
of `data.before`; the source's `is_create` test on the identity value is
exactly Python falsiness. -/
theorem C6_identity_field_precedence :
    (∀ (f : String) (before : List (String × Value)) (v : Value),
      f ≠ "" → before.lookup f = some v →
      infer_operation (some f) before = if py_truthy v then "EDIT" else "CREATE") ∧
    (∀ v : Value, identity_is_create v = !py_truthy v) := by
  have hic : ∀ v : Value, identity_is_create v = !py_truthy v := by
    intro v
    cases v with
    | vBool b => cases b <;> rfl
    | vStr s => simp [identity_is_create, py_truthy]
    | vNull => rfl
    | vInt n => simp [identity_is_create, py_truthy]
    | vList l => simp [identity_is_create, py_truthy]
    | vDict d => simp [identity_is_create, py_truthy]
  refine ⟨?_, hic⟩
  intro f before v hf hl
  simp only [infer_operation, if_pos hf, hl, hic v]
  cases hpt : py_truthy v <;> simp

/-- C6 counterexample: the field map yields the identity field `""`,
which is a key of `before = \x7b"": "", "k": "v"\x7d` with falsy
before-value, so the claim predicts CREATE; but the source's
`if identity_field and identity_field in before:` guard rejects the
empty string and the generic branch returns EDIT (since `"v"` is
truthy). -/
theorem C6_counterexample :
    infer_operation (some "") [("", Value.vStr ""), ("k", Value.vStr "v")] = "EDIT" ∧
    List.lookup "" [("", Value.vStr ""), ("k", Value.vStr "v")] = some (Value.vStr "") ∧
    py_truthy (Value.vStr "") = false ∧
    infer_operation (some "") [("", Value.vStr ""), ("k", Value.vStr "v")] ≠ "CREATE" := by
  refine ⟨rfl, rfl, rfl, ?_⟩
  decide

/-- Witness for C6 at a concrete input: identity field `"name"` present
with falsy before-value yields CREATE even though the rest of `before`
is non-empty and truthy. -/
theorem C6_identity_field_precedence_witness :
    infer_operation (some "name") [("name", Value.vStr ""), ("status", Value.vStr "x")] =
      "CREATE" := by
  have h := (C6_identity_field_precedence).1 "name"
    [("name", Value.vStr ""), ("status", Value.vStr "x")] (Value.vStr "")
    (by decide) rfl
  simpa using h

theorem text_tokens_nil_after (keys : List String) : text_tokens keys [] = [] := by
  induction keys with
  | nil => rfl
  | cons k ks ih =>
    show (key_tokens [] k :: ks.map (key_tokens [])).flatten = []
    rw [List.flatten_cons]
    show [] ++ text_tokens ks [] = []
    rw [ih]
    rfl

theorem text_view_nil_after (keys : List String) : text_view keys [] = "" := by
  rw [text_view, text_tokens_nil_after]
  rfl

theorem struct_vec_nil_after (keys : List String) :
    struct_vec keys [] = List.replicate keys.length 0 := by
  show keys.map (fun k =>
    if in_falsy_tuple ((List.lookup k []).getD Value.vNull) then 0 else 1) = _
  have : (fun k : String =>
      if in_falsy_tuple ((List.lookup k []).getD Value.vNull) then 0 else 1) =
      (fun _ : String => (0 : Nat)) := by
    funext k
    rfl
  rw [this, List.map_const']

/-- C7: for every record lacking `data.after` (or lacking `data`
entirely), feature extraction is total and produces the empty text view
and the all-zero struct view of full vocabulary length. -/
theorem C7_missing_after (keys : List String) (s : Sample)
    (h : s.data = none ∨ ∃ d, s.data = some d ∧ d.after = none) :
    text_view keys (get_data_after s) = "" ∧
    struct_vec keys (get_data_after s) = List.replicate keys.length 0 := by
  have hga : get_data_after s = [] := by
    rcases h with h | ⟨d, hd, ha⟩
    · simp [get_data_after, h]
    · simp [get_data_after, hd, ha]
  rw [hga]
  exact ⟨text_view_nil_after keys, struct_vec_nil_after keys⟩

/-- Witness for C7 on a concrete record with no `data` at all. -/
theorem C7_missing_after_witness :
    text_view ["name"] (get_data_after sampleEmpty) = "" ∧
    struct_vec ["name"] (get_data_after sampleEmpty) = List.replicate 1 0 := by
  have h := C7_missing_after ["name"] sampleEmpty (Or.inl rfl)
  simpa using h

/-- Lookup in an association list with pairwise-distinct keys is
invariant under permutation of the entries. -/
theorem lookup_eq_of_perm {a1 a2 : List (String × Value)} (hp : a1.Perm a2) :
    (a1.map Prod.fst).Nodup → ∀ k, a1.lookup k = a2.lookup k := by
  induction hp with
  | nil =>
    intro _ k
    rfl
  | cons x p ih =>
    intro hnd k
    have hnd2 : ((_ : List (String × Value)).map Prod.fst).Nodup :=
      (List.nodup_cons.mp hnd).2
    show List.lookup k (x :: _) = List.lookup k (x :: _)
    simp only [List.lookup]
    cases k == x.1 with
    | true => rfl
    | false => exact ih hnd2 k
  | swap x y l =>
    intro hnd k
    have hxy : y.1 ≠ x.1 := by
      have := List.nodup_cons.mp hnd
      exact fun he => this.1 (he ▸ List.mem_cons_self _ _)
    show List.lookup k (y :: x :: l) = List.lookup k (x :: y :: l)
    simp only [List.lookup]
    cases hky : k == y.1 with
    | true =>
      cases hkx : k == x.1 with
      | true =>
        exact absurd ((eq_of_beq hky).symm.trans (eq_of_beq hkx)) hxy
      | false => rfl
    | false =>
      cases hkx : k == x.1 with
      | true => rfl
      | false => rfl
  | trans p q ih1 ih2 =>
    intro hnd k
    have hmid : ((_ : List (String × Value)).map Prod.fst).Nodup :=
      (p.map Prod.fst).nodup hnd
    exact (ih1 hnd k).trans (ih2 hmid k)

/-- C8: for a fixed key vocabulary, two after-state maps holding the same
key-value pairs in different orders (a permutation, with the keys
pairwise distinct as in a Python dict) produce the identical text view:
token identity and order are fixed by the vocabulary order alone. -/
theorem C8_text_view_order_invariance (keys : List String)
    (a1 a2 : List (String × Value)) (hperm : a1.Perm a2)
    (hnd : (a1.map Prod.fst).Nodup) :
    text_view keys a1 = text_view keys a2 := by
  have hl : ∀ k, a1.lookup k = a2.lookup k := lookup_eq_of_perm hperm hnd
  have hk : ∀ k, key_tokens a1 k = key_tokens a2 k := by
    intro k
    rw [key_tokens, key_tokens, hl k]
  rw [text_view, text_view, text_tokens, text_tokens,
    List.map_congr_left (fun k _ => hk k)]

/-- Witness for C8: swapping the two entries of a concrete after-state
map leaves the text view unchanged. -/
theorem C8_text_view_order_invariance_witness :
    text_view ["a", "b"] [("a", Value.vStr "1"), ("b", Value.vStr "2")] =
      text_view ["a", "b"] [("b", Value.vStr "2"), ("a", Value.vStr "1")] :=
  C8_text_view_order_invariance ["a", "b"] _ _
    (List.Perm.swap ("b", Value.vStr "2") ("a", Value.vStr "1") [])
    (by decide)

theorem lookup_invert_enum (ul : List String) (n i : Nat) :
    (invert_map (enum_pairs n ul)).lookup i =
      if i < n then none else ul[i - n]? := by
  induction ul generalizing n with
  | nil =>
    show (none : Option String) = if i < n then none else ([] : List String)[i - n]?
    rw [List.getElem?_nil]
    split <;> rfl
  | cons x xs ih =>
    show List.lookup i ((n, x) :: invert_map (enum_pairs (n + 1) xs)) = _
    simp only [List.lookup]
    rcases Nat.lt_trichotomy i n with h | h | h
    · have hb : (i == n) = false := beq_eq_false_iff_ne.mpr (by omega)
      rw [hb]
      show (invert_map (enum_pairs (n + 1) xs)).lookup i = _
      rw [ih (n + 1)]
      rw [if_pos (by omega : i < n + 1), if_pos h]
    · subst h
      rw [beq_self_eq_true]
      rw [if_neg (by omega : ¬ i < i), Nat.sub_self]
      simp
    · have hb : (i == n) = false := beq_eq_false_iff_ne.mpr (by omega)
      rw [hb]
      show (invert_map (enum_pairs (n + 1) xs)).lookup i = _
      rw [ih (n + 1)]
      rw [if_neg (by omega : ¬ i < n + 1), if_neg (by omega : ¬ i < n)]
      have : i - n = (i - (n + 1)) + 1 := by omega
      rw [this, List.getElem?_cons_succ]

/-- C9: in the exported artifact, `metadata.labels` is exactly the
inverse of the training-time label-to-index mapping (the two compose to
the identity in both directions), `metadata.diff_dim` is 200, and
`metadata.struct_dim` equals both the struct expert's input width and
the corpus-wide struct vector length computed at preprocessing. -/
theorem C9_export_metadata (idf_of : Sample → Option String) (samples : List Sample)
    (tfidf_dim : Nat) :
    (export_metadata (preprocess_out idf_of samples)).diff_dim = 200 ∧
    (export_metadata (preprocess_out idf_of samples)).struct_dim =
      (train_model_dims (preprocess_out idf_of samples) tfidf_dim).struct_in ∧
    (export_metadata (preprocess_out idf_of samples)).struct_dim =
      max_len (samples.map (fun s => struct_vec (sorted_keys samples) (get_data_after s))) ∧
    (∀ l i, label_to_idx (corpus_labels idf_of samples) l = some i ↔
      (export_metadata (preprocess_out idf_of samples)).labels.lookup i = some l) := by
  refine ⟨rfl, rfl, rfl, ?_⟩
  intro l i
  have hnd := unique_labels_nodup (corpus_labels idf_of samples)
  rw [label_to_idx, find_idx_eq_some_iff _ _ hnd]
  show _ ↔ (invert_map (enum_pairs 0 (unique_labels (corpus_labels idf_of samples)))).lookup i
    = some l
  rw [lookup_invert_enum]
  rw [if_neg (by omega : ¬ i < 0), Nat.sub_zero]

/-- C10: a present-but-falsy `metadata.operation` (the empty string) is
discarded and the operation is inferred exactly as if it were absent;
a truthy operation value is used verbatim (upper-cased) in the label. -/
theorem C10_falsy_operation :
    (∀ (ot idf : Option String) (before : List (String × Value)),
      sample_label ot (some "") idf before = sample_label ot none idf before) ∧
    (∀ (ot idf : Option String) (before : List (String × Value)) (s : String),
      s ≠ "" → sample_label ot (some s) idf before =
        py_upper (ot.getD "unknown") ++ " " ++ py_upper s) := by
  constructor
  · intro ot idf before
    rfl
  · intro ot idf before s hs
    rw [sample_label]
    show py_upper (ot.getD "unknown") ++ " " ++
      py_upper (if s ≠ "" then s else infer_operation idf before) = _
    rw [if_pos hs]

/-- Witness for C10: the empty operation string is discarded on a
concrete record, and a non-empty operation string is upper-cased into
the label verbatim. -/
theorem C10_falsy_operation_witness :
    sample_label (some "address") (some "") none [] =
      sample_label (some "address") none none [] ∧
    sample_label (some "address") (some "delete") none [] = "ADDRESS DELETE" := by
  constructor
  · exact (C10_falsy_operation).1 (some "address") none []
  · rw [(C10_falsy_operation).2 (some "address") none [] "delete" (by decide)]
    decide

end PreSave
